import Mathlib

/-!
Shallow embedding of `update_assembly.py`, a one-shot converter that reads a
phase-assignment table (`parse_phase`) and rewrites a juicebox assembly file
twice, once per haplotype (`write_assembly`, driven by `main`, here named
`mainProgram`).

Strings are modelled as `List Char`; a whole file's content is one `List Char`,
and Python's line-by-line file iteration is `splitLines`.  A Python
`IndexError` is modelled as `none`.
-/

/-- Python file iteration, auxiliary: split the content after every newline
character, keeping the newline at the end of each chunk; a final chunk without
a newline is kept, and no empty chunk is ever produced. -/
def splitLinesAux : List Char → List Char → List (List Char)
  | [], acc => if acc = [] then [] else [acc.reverse]
  | c :: rest, acc =>
    if c = '\n' then (acc.reverse ++ ['\n']) :: splitLinesAux rest []
    else splitLinesAux rest (c :: acc)

/-- The lines yielded by Python's `for line in infile`, newlines kept. -/
def splitLines (s : List Char) : List (List Char) :=
  splitLinesAux s []

/-- ASCII whitespace, as recognised by Python `str.split` / `str.strip`. -/
def pyIsSpace (c : Char) : Bool :=
  c == ' ' || c == '\t' || c == '\n' || c == '\r' || c == '\x0b' || c == '\x0c'

/-- Python `str.split()` with no separator, auxiliary: split on runs of
whitespace, producing no empty tokens. -/
def pySplitAux : List Char → List Char → List (List Char)
  | [], acc => if acc = [] then [] else [acc.reverse]
  | c :: rest, acc =>
    if pyIsSpace c then
      if acc = [] then pySplitAux rest []
      else acc.reverse :: pySplitAux rest []
    else pySplitAux rest (c :: acc)

/-- Python `str.split()` with no separator. -/
def pySplit (s : List Char) : List (List Char) :=
  pySplitAux s []

/-- Python `str.strip()`: remove leading and trailing whitespace. -/
def pyStrip (s : List Char) : List Char :=
  ((s.dropWhile pyIsSpace).reverse.dropWhile pyIsSpace).reverse

/-- The loop of `parse_phase`: for each line, `split = line.strip().split()`,
append `split[1]` to the maternal list and `split[2]` to the paternal list.
A missing index (Python `IndexError`) is modelled as `none`. -/
def parsePhaseLoop : List (List Char) → List (List Char) → List (List Char) →
    Option (List (List Char) × List (List Char))
  | [], maternal, paternal => some (maternal, paternal)
  | line :: rest, maternal, paternal =>
    match (pySplit (pyStrip line)).get? 1, (pySplit (pyStrip line)).get? 2 with
    | some a, some b => parsePhaseLoop rest (maternal ++ [a]) (paternal ++ [b])
    | _, _ => none

/-- `parse_phase`: parse the phase file content into the two haplotype lists
(maternal from column 1, paternal from column 2, 0-based). -/
def parse_phase (content : List Char) : Option (List (List Char) × List (List Char)) :=
  parsePhaseLoop (splitLines content) [] []

/-- The name field of an assembly line: `line[1 : 1+length]`. -/
def nameField (length : Nat) (line : List Char) : List Char :=
  (line.drop 1).take length

/-- One iteration of the `write_assembly` loop: if `'>' in line`, slice out
`name = line[1:1+length]` and `suffix = line[1+length:]`; emit the line
unchanged when `name` is in the haplotype list, otherwise toggle the final
character of `name` (`'0'` becomes `'1'`, anything else becomes `'0'`) and
emit `'>' + toggled name + suffix`.  Indexing `name[-1]` of an empty `name`
is an `IndexError`, modelled as `none`. -/
def rewriteLine (length : Nat) (haplotype : List (List Char)) (line : List Char) :
    Option (List Char) :=
  if '>' ∈ line then
    let name := (line.drop 1).take length
    let suffix := line.drop (1 + length)
    if name ∈ haplotype then some line
    else
      match name.getLast? with
      | none => none
      | some c =>
        if c = '0' then some ((('>' :: name.dropLast) ++ ['1']) ++ suffix)
        else some ((('>' :: name.dropLast) ++ ['0']) ++ suffix)
  else some line

/-- The line loop of `write_assembly`, emitting the concatenation of the
rewritten lines, or `none` as soon as one line faults. -/
def writeLines (length : Nat) (haplotype : List (List Char)) :
    List (List Char) → Option (List Char)
  | [] => some []
  | line :: rest =>
    match rewriteLine length haplotype line with
    | none => none
    | some out =>
      match writeLines length haplotype rest with
      | none => none
      | some outs => some (out ++ outs)

/-- `write_assembly`: rewrite a whole assembly file for one haplotype. -/
def write_assembly (length : Nat) (haplotype : List (List Char)) (content : List Char) :
    Option (List Char) :=
  writeLines length haplotype (splitLines content)

/-- Remove trailing `'/'` characters (Python `str.rstrip('/')`). -/
def dropTrailingSlashes (l : List Char) : List Char :=
  (l.reverse.dropWhile (fun c => c == '/')).reverse

/-- POSIX `os.path.split`: split at the last `'/'`; the head keeps no
trailing slashes unless it consists only of slashes. -/
def osPathSplit (p : List Char) : List Char × List Char :=
  let tail := (p.reverse.takeWhile (fun c => !(c == '/'))).reverse
  let head := p.take (p.length - tail.length)
  if head ≠ [] ∧ ¬ (∀ c ∈ head, c = '/') then (dropTrailingSlashes head, tail)
  else (head, tail)

/-- POSIX `os.path.join` of two components. -/
def osPathJoin (a b : List Char) : List Char :=
  if b.head? = some '/' then b
  else if a = [] ∨ a.getLast? = some '/' then a ++ b
  else a ++ ('/' :: b)

/-- `os.path.abspath`, modelled as the identity: on an already-absolute,
normalized path (the only case the claims exercise) `abspath` returns its
argument unchanged. -/
def absPath (p : List Char) : List Char := p

/-- `main`: parse the phase file, then rewrite the assembly twice — first with
the maternal list into `0-<basename>`, then with the paternal list into
`1-<basename>`, both joined to the input assembly's directory.  The result
pairs each output path with the content written there. -/
def mainProgram (assemblyPath phaseContent assemblyContent : List Char) (length : Nat) :
    Option ((List Char × List Char) × (List Char × List Char)) :=
  match parse_phase phaseContent with
  | none => none
  | some hs =>
    let sp := osPathSplit (absPath assemblyPath)
    match write_assembly length hs.1 assemblyContent with
    | none => none
    | some out0 =>
      match write_assembly length hs.2 assemblyContent with
      | none => none
      | some out1 =>
        some ((osPathJoin sp.1 ('0' :: '-' :: sp.2), out0),
              (osPathJoin sp.1 ('1' :: '-' :: sp.2), out1))

/-! ### Basic lemmas about the embedding -/

theorem splitLinesAux_flatten (rest : List Char) :
    ∀ acc : List Char, (splitLinesAux rest acc).flatten = acc.reverse ++ rest := by
  induction rest with
  | nil =>
    intro acc
    by_cases h : acc = [] <;> simp [splitLinesAux, h]
  | cons c rest ih =>
    intro acc
    by_cases h : c = '\n'
    · simp [splitLinesAux, h, ih]
    · simp [splitLinesAux, h, ih]

theorem splitLines_flatten (s : List Char) : (splitLines s).flatten = s := by
  simpa using splitLinesAux_flatten s []

theorem splitLinesAux_ne_nil (rest : List Char) :
    ∀ acc : List Char, ∀ l ∈ splitLinesAux rest acc, l ≠ [] := by
  induction rest with
  | nil =>
    intro acc l hl
    by_cases h : acc = [] <;> simp [splitLinesAux, h] at hl
    subst hl
    simpa using h
  | cons c rest ih =>
    intro acc l hl
    by_cases h : c = '\n'
    · simp [splitLinesAux, h] at hl
      rcases hl with hl | hl
      · subst hl; simp
      · exact ih [] l hl
    · simp only [splitLinesAux, if_neg h] at hl
      exact ih (c :: acc) l hl

theorem splitLines_ne_nil (s : List Char) : ∀ l ∈ splitLines s, l ≠ [] :=
  splitLinesAux_ne_nil s []

theorem nameField_eq (length : Nat) (line : List Char) :
    nameField length line = (line.drop 1).take length := rfl

theorem rewriteLine_not_marker (length : Nat) (haplotype : List (List Char))
    (line : List Char) (h : '>' ∉ line) :
    rewriteLine length haplotype line = some line := by
  simp [rewriteLine, h]

theorem rewriteLine_member (length : Nat) (haplotype : List (List Char))
    (line : List Char) (hm : '>' ∈ line)
    (hin : (line.drop 1).take length ∈ haplotype) :
    rewriteLine length haplotype line = some line := by
  have hin' : List.take length line.tail ∈ haplotype := by simpa using hin
  simp [rewriteLine, hm, hin']

theorem rewriteLine_toggle (length : Nat) (haplotype : List (List Char))
    (line : List Char) (c : Char) (hm : '>' ∈ line)
    (hnotin : (line.drop 1).take length ∉ haplotype)
    (hlast : ((line.drop 1).take length).getLast? = some c) :
    rewriteLine length haplotype line =
      some ((('>' :: ((line.drop 1).take length).dropLast) ++
        [if c = '0' then '1' else '0']) ++ line.drop (1 + length)) := by
  have hnotin' : List.take length line.tail ∉ haplotype := by simpa using hnotin
  have hlast' : (List.take length line.tail).getLast? = some c := by simpa using hlast
  by_cases h0 : c = '0' <;>
    simp [rewriteLine, hm, hnotin', hlast', h0]

/-- C1: for every input line containing the marker `'>'`, with
`name = line[1:1+length]` and `suffix = line[1+length:]`: if `name` is in the
haplotype list the line is emitted unchanged; otherwise (for a nonempty name,
whose last character is some `c`) the emitted line is `'>'` followed by `name`
with its last character replaced (`'0'` becomes `'1'`, anything else becomes
`'0'`) followed by `suffix`. -/
theorem C1_marker_line_rewrite (length : Nat) (haplotype : List (List Char))
    (line : List Char) (hm : '>' ∈ line) :
    ((line.drop 1).take length ∈ haplotype →
      rewriteLine length haplotype line = some line) ∧
    (∀ c : Char, (line.drop 1).take length ∉ haplotype →
      ((line.drop 1).take length).getLast? = some c →
      rewriteLine length haplotype line =
        some ((('>' :: ((line.drop 1).take length).dropLast) ++
          [if c = '0' then '1' else '0']) ++ line.drop (1 + length))) :=
  ⟨fun hin => rewriteLine_member length haplotype line hm hin,
   fun c hnotin hlast => rewriteLine_toggle length haplotype line c hm hnotin hlast⟩

/-- Witness for C1 at the spec's own example: width 9, maternal list
containing only `000021F_1`, line `>000021F_0 1 22\n` is toggled to
`>000021F_1 1 22\n`. -/
theorem C1_marker_line_rewrite_witness :
    rewriteLine 9 [("000021F_1").toList] ((">000021F_0 1 22\n").toList) =
      some ((">000021F_1 1 22\n").toList) := by
  have h := (C1_marker_line_rewrite 9 [("000021F_1").toList]
    ((">000021F_0 1 22\n").toList) (by decide)).2 '0' (by decide) (by decide)
  rw [h]
  decide

/-- C5: a line that does not contain the marker `'>'` anywhere is emitted
byte-for-byte unchanged, whichever haplotype list (hence in both passes). -/
theorem C5_non_marker_line_unchanged (length : Nat) (haplotype : List (List Char))
    (line : List Char) (h : '>' ∉ line) :
    rewriteLine length haplotype line = some line :=
  rewriteLine_not_marker length haplotype line h

/-- Witness for C5: the non-header line `1 2 3 -4 -5\n` is emitted unchanged. -/
theorem C5_non_marker_line_unchanged_witness :
    rewriteLine 9 [] (("1 2 3 -4 -5\n").toList) = some (("1 2 3 -4 -5\n").toList) :=
  C5_non_marker_line_unchanged 9 [] (("1 2 3 -4 -5\n").toList) (by decide)

/-- C10: on an input whose final (and only) line is exactly `>`, with the
empty string not a member of the haplotype list, the last-character test
indexes into an empty string: the rewriter faults (uncaught `IndexError`,
modelled as `none`), for every width and every such haplotype list. -/
theorem C10_empty_name_index_error (length : Nat) (haplotype : List (List Char))
    (h : ([] : List Char) ∉ haplotype) :
    rewriteLine length haplotype ['>'] = none ∧
    write_assembly length haplotype ['>'] = none := by
  have hr : rewriteLine length haplotype ['>'] = none := by
    simp [rewriteLine, h]
  refine ⟨hr, ?_⟩
  have hs : splitLines ['>'] = [['>']] := by decide
  simp [write_assembly, hs, writeLines, hr]

/-- Witness for C10 at width 9 and the empty haplotype list. -/
theorem C10_empty_name_index_error_witness :
    rewriteLine 9 [] ['>'] = none ∧ write_assembly 9 [] ['>'] = none :=
  C10_empty_name_index_error 9 [] (by decide)

theorem writeLines_id (length : Nat) (haplotype : List (List Char)) :
    ∀ lines : List (List Char),
      (∀ l ∈ lines, rewriteLine length haplotype l = some l) →
      writeLines length haplotype lines = some lines.flatten := by
  intro lines
  induction lines with
  | nil => intro _; rfl
  | cons line rest ih =>
    intro h
    have h1 : rewriteLine length haplotype line = some line := h line (by simp)
    have h2 := ih (fun l hl => h l (by simp [hl]))
    simp [writeLines, h1, h2]

/-- C6: idempotence — if every line of the input containing `'>'` has its
name field already in the supplied haplotype list, the output is
byte-for-byte identical to the input. -/
theorem C6_idempotent (length : Nat) (haplotype : List (List Char))
    (content : List Char)
    (h : ∀ l ∈ splitLines content, '>' ∈ l → (l.drop 1).take length ∈ haplotype) :
    write_assembly length haplotype content = some content := by
  have hall : ∀ l ∈ splitLines content, rewriteLine length haplotype l = some l := by
    intro l hl
    by_cases hm : '>' ∈ l
    · exact rewriteLine_member length haplotype l hm (h l hl hm)
    · exact rewriteLine_not_marker length haplotype l hm
  rw [write_assembly, writeLines_id length haplotype (splitLines content) hall,
    splitLines_flatten]

/-- Witness for C6: an already-correct two-line file is reproduced exactly. -/
theorem C6_idempotent_witness :
    write_assembly 9 [("000021F_1").toList]
        ((">000021F_1 1 22\n1 2 3 -4 -5\n").toList) =
      some ((">000021F_1 1 22\n1 2 3 -4 -5\n").toList) :=
  C6_idempotent 9 [("000021F_1").toList]
    ((">000021F_1 1 22\n1 2 3 -4 -5\n").toList) (by decide)

theorem parsePhaseLoop_ok (lines : List (List Char))
    (h : ∀ l ∈ lines, 3 ≤ (pySplit (pyStrip l)).length) :
    ∀ m p : List (List Char),
      parsePhaseLoop lines m p =
        some (m ++ lines.map (fun l => ((pySplit (pyStrip l)).get? 1).getD []),
              p ++ lines.map (fun l => ((pySplit (pyStrip l)).get? 2).getD [])) := by
  induction lines with
  | nil => intro m p; simp [parsePhaseLoop]
  | cons line rest ih =>
    intro m p
    have h3 := h line (by simp)
    obtain ⟨a, ha⟩ : ∃ a, (pySplit (pyStrip line))[1]? = some a :=
      ⟨_, List.getElem?_eq_getElem (by omega)⟩
    obtain ⟨b, hb⟩ : ∃ b, (pySplit (pyStrip line))[2]? = some b :=
      ⟨_, List.getElem?_eq_getElem (by omega)⟩
    have htail := ih (fun l hl => h l (by simp [hl]))
    simp only [parsePhaseLoop, List.get?_eq_getElem?, ha, hb]
    rw [htail]
    simp [List.get?_eq_getElem?, ha, hb]

/-- C3: for a phase file in which every line yields at least three
whitespace-separated tokens, `parse_phase` returns the ordered lists of the
tokens at index 1 (maternal) and index 2 (paternal) of each line, in input
order with duplicates kept; moreover no line of the file iteration is ever
the empty string, so empty lines contribute nothing and fault nothing. -/
theorem C3_parse_phase_columns (content : List Char)
    (h : ∀ l ∈ splitLines content, 3 ≤ (pySplit (pyStrip l)).length) :
    parse_phase content =
      some ((splitLines content).map (fun l => ((pySplit (pyStrip l)).get? 1).getD []),
            (splitLines content).map (fun l => ((pySplit (pyStrip l)).get? 2).getD [])) ∧
    ∀ l ∈ splitLines content, l ≠ [] := by
  refine ⟨?_, splitLines_ne_nil content⟩
  simpa [parse_phase] using parsePhaseLoop_ok (splitLines content) h [] []

/-- Witness for C3 at the spec's example line
`contig_pair 000021F_1 000021F_0`: the maternal list receives `000021F_1`
and the paternal list `000021F_0`. -/
theorem C3_parse_phase_columns_witness :
    parse_phase (("contig_pair 000021F_1 000021F_0\n").toList) =
      some ([("000021F_1").toList], [("000021F_0").toList]) := by
  have h := (C3_parse_phase_columns
    (("contig_pair 000021F_1 000021F_0\n").toList) (by decide)).1
  rw [h]
  decide

theorem parsePhaseLoop_short_line (lines : List (List Char)) :
    ∀ m p : List (List Char),
      (∃ l ∈ lines, (pySplit (pyStrip l)).length < 3) →
      parsePhaseLoop lines m p = none := by
  induction lines with
  | nil => intro m p h; simp at h
  | cons line rest ih =>
    intro m p h
    rcases h with ⟨l, hl, hlen⟩
    rcases List.mem_cons.1 hl with rfl | hl'
    · have h2 : (pySplit (pyStrip l))[2]? = none :=
        List.getElem?_eq_none (by omega)
      cases e1 : (pySplit (pyStrip l))[1]? <;>
        simp [parsePhaseLoop, List.get?_eq_getElem?, e1, h2]
    · cases e1 : (pySplit (pyStrip line))[1]? with
      | none => simp [parsePhaseLoop, List.get?_eq_getElem?, e1]
      | some a =>
        cases e2 : (pySplit (pyStrip line))[2]? with
        | none => simp [parsePhaseLoop, List.get?_eq_getElem?, e1, e2]
        | some b =>
          simp only [parsePhaseLoop, List.get?_eq_getElem?, e1, e2]
          exact ih _ _ ⟨l, hl', hlen⟩

/-- C4: if any line of the phase file has fewer than three
whitespace-separated tokens, `parse_phase` faults (index-out-of-range,
modelled as `none`), and the whole run aborts with no output assembly file
written: `mainProgram` parses the phase file before any rewrite pass and
returns `none` for every assembly input. -/
theorem C4_malformed_phase_aborts (phaseContent : List Char)
    (h : ∃ l ∈ splitLines phaseContent, (pySplit (pyStrip l)).length < 3) :
    parse_phase phaseContent = none ∧
    ∀ (assemblyPath assemblyContent : List Char) (length : Nat),
      mainProgram assemblyPath phaseContent assemblyContent length = none := by
  have hp : parse_phase phaseContent = none :=
    parsePhaseLoop_short_line (splitLines phaseContent) [] [] h
  exact ⟨hp, fun _ _ _ => by simp [mainProgram, hp]⟩

/-- Witness for C4: a phase line with only two tokens aborts the run. -/
theorem C4_malformed_phase_aborts_witness :
    parse_phase (("contig_pair 000021F_1\n").toList) = none ∧
    mainProgram (("/data/in.assembly").toList) (("contig_pair 000021F_1\n").toList)
      ((">000021F_1 1 22\n").toList) 9 = none := by
  have h := C4_malformed_phase_aborts (("contig_pair 000021F_1\n").toList) (by decide)
  exact ⟨h.1, h.2 _ _ _⟩

/-- C8: the orchestrator invokes the rewriter exactly twice on the same
assembly content: the first pass uses the maternal list and its output goes
to `0-<basename>` joined to the input's directory, the second uses the
paternal list and goes to `1-<basename>` in the same directory. -/
theorem C8_two_passes (assemblyPath phaseContent assemblyContent : List Char)
    (length : Nat) (maternal paternal : List (List Char))
    (hp : parse_phase phaseContent = some (maternal, paternal))
    (out0 out1 : List Char)
    (h0 : write_assembly length maternal assemblyContent = some out0)
    (h1 : write_assembly length paternal assemblyContent = some out1) :
    mainProgram assemblyPath phaseContent assemblyContent length =
      some ((osPathJoin (osPathSplit (absPath assemblyPath)).1
              ('0' :: '-' :: (osPathSplit (absPath assemblyPath)).2), out0),
            (osPathJoin (osPathSplit (absPath assemblyPath)).1
              ('1' :: '-' :: (osPathSplit (absPath assemblyPath)).2), out1)) := by
  simp [mainProgram, hp, h0, h1]

/-- Witness for C8: a full concrete run, showing the two output paths
`/data/0-in.assembly` and `/data/1-in.assembly` with maternal and paternal
rewrites respectively. -/
theorem C8_two_passes_witness :
    mainProgram (("/data/in.assembly").toList) (("p 000021F_1 000021F_0\n").toList)
        ((">000021F_1 1 22\n").toList) 9 =
      some (((("/data/0-in.assembly").toList), ((">000021F_1 1 22\n").toList)),
            ((("/data/1-in.assembly").toList), ((">000021F_0 1 22\n").toList))) := by
  have h := C8_two_passes (("/data/in.assembly").toList)
    (("p 000021F_1 000021F_0\n").toList) ((">000021F_1 1 22\n").toList) 9
    [("000021F_1").toList] [("000021F_0").toList] (by decide)
    ((">000021F_1 1 22\n").toList) ((">000021F_0 1 22\n").toList)
    (by decide) (by decide)
  rw [h]
  decide

theorem nameField_rewritten (length : Nat) (line : List Char) (d : Char)
    (hne : (line.drop 1).take length ≠ []) :
    nameField length
        ((('>' :: ((line.drop 1).take length).dropLast) ++ [d]) ++ line.drop (1 + length)) =
      ((line.drop 1).take length).dropLast ++ [d] := by
  have hpos : 0 < ((line.drop 1).take length).length := List.length_pos.2 hne
  have hshape : (('>' :: ((line.drop 1).take length).dropLast) ++ [d]) ++ line.drop (1 + length)
      = '>' :: ((((line.drop 1).take length).dropLast ++ [d]) ++ line.drop (1 + length)) := by
    simp
  rw [nameField, hshape]
  simp only [List.drop_succ_cons, List.drop_zero]
  rcases le_or_lt length (line.drop 1).length with hle | hlt
  · have hlen : (((line.drop 1).take length).dropLast ++ [d]).length = length := by
      simp only [List.length_take] at hpos
      simp only [List.length_append, List.length_dropLast, List.length_take,
        List.length_singleton]
      omega
    rw [List.take_left' hlen]
  · have hsuf : line.drop (1 + length) = [] := by
      have h1 : (line.drop 1).drop length = [] :=
        List.drop_eq_nil_of_le (le_of_lt hlt)
      rw [List.drop_drop] at h1
      exact h1
    rw [hsuf, List.append_nil]
    apply List.take_of_length_le
    simp only [List.length_take] at hpos
    simp only [List.length_append, List.length_dropLast, List.length_take,
      List.length_singleton]
    omega

/-- C7: both rewrite passes preserve every marker line's name field except
possibly its final indicator character: for any haplotype list, the rewritten
line's name field has the same length as the input's and the same content
with the last character dropped — so each input contig name, indicator
stripped, reappears exactly where it was, under a single indicator value. -/
theorem C7_name_preserved (length : Nat) (haplotype : List (List Char))
    (line : List Char) (hm : '>' ∈ line) (hne : nameField length line ≠ []) :
    ∃ out, rewriteLine length haplotype line = some out ∧
      (nameField length out).dropLast = (nameField length line).dropLast ∧
      (nameField length out).length = (nameField length line).length := by
  by_cases hin : (line.drop 1).take length ∈ haplotype
  · exact ⟨line, rewriteLine_member length haplotype line hm hin, rfl, rfl⟩
  · obtain ⟨c, hc⟩ := Option.isSome_iff_exists.1 (List.getLast?_isSome.2 hne)
    refine ⟨_, rewriteLine_toggle length haplotype line c hm hin hc, ?_, ?_⟩
    · rw [nameField_rewritten length line _ hne, List.dropLast_concat]
      rfl
    · rw [nameField_rewritten length line _ hne]
      have hpos : 0 < ((line.drop 1).take length).length := List.length_pos.2 hne
      simp only [List.length_append, List.length_dropLast, List.length_singleton,
        nameField]
      omega

/-- Witness for C7 at the spec's example: toggling `>000021F_1 1 22\n` keeps
the name field's first eight characters and its width. -/
theorem C7_name_preserved_witness :
    ∃ out, rewriteLine 9 [] ((">000021F_1 1 22\n").toList) = some out ∧
      (nameField 9 out).dropLast = (nameField 9 ((">000021F_1 1 22\n").toList)).dropLast ∧
      (nameField 9 out).length = (nameField 9 ((">000021F_1 1 22\n").toList)).length :=
  C7_name_preserved 9 [] ((">000021F_1 1 22\n").toList) (by decide) (by decide)

/-- C9: for a line containing `'>'` whose total length is at most
`length + 1` — so the name field absorbs the line's trailing newline and
the suffix is empty — whose name is not in the haplotype list, the rewriter
replaces the trailing newline with the indicator digit `'0'`: the emitted
line ends in `'0'` and has no line terminator, so it joins with the
following line in the output file. -/
theorem C9_newline_swallowed (length : Nat) (haplotype : List (List Char))
    (line : List Char) (hm : '>' ∈ line) (hlen : line.length ≤ length + 1)
    (hnl : line.getLast? = some '\n')
    (hnotin : (line.drop 1).take length ∉ haplotype) :
    rewriteLine length haplotype line =
      some (('>' :: ((line.drop 1).take length).dropLast) ++ ['0']) ∧
    ((('>' :: ((line.drop 1).take length).dropLast) ++ ['0']).getLast? = some '0') := by
  refine ⟨?_, List.getLast?_concat _⟩
  have hlast : ((line.drop 1).take length).getLast? = some '\n' := by
    cases line with
    | nil => simp at hm
    | cons a rest =>
      cases rest with
      | nil =>
        simp at hm hnl
        rw [← hm] at hnl
        exact absurd hnl (by decide)
      | cons b t =>
        have hl2 : (b :: t).length ≤ length := by
          have : (a :: b :: t).length = (b :: t).length + 1 := by simp
          omega
        have htake : (b :: t).take length = b :: t := List.take_of_length_le hl2
        have hdrop : (a :: b :: t).drop 1 = b :: t := rfl
        rw [hdrop, htake, ← List.getLast?_cons_cons]
        exact hnl
  have h := rewriteLine_toggle length haplotype line '\n' hm hnotin hlast
  have hsuf : line.drop (1 + length) = [] := List.drop_eq_nil_of_le (by omega)
  have hif : (if ('\n' : Char) = '0' then '1' else '0') = '0' := by decide
  rw [h, hsuf, hif]
  simp

/-- Witness for C9: width 9, line `>000021F\n` (nine characters), empty
haplotype list: the emitted line is `>000021F0`, with no newline. -/
theorem C9_newline_swallowed_witness :
    rewriteLine 9 [] ((">000021F\n").toList) = some ((">000021F0").toList) := by
  have h := C9_newline_swallowed 9 [] ((">000021F\n").toList)
    (by decide) (by decide) (by decide) (by decide)
  rw [h.1]
  decide

/-- C2 (amended): fix an indicator digit `d`.  If every member of the
supplied haplotype list ends in `d`, and every marker line of the input
whose name field is outside the list has a nonempty name field whose final
character toggles to `d` (it is `'0'` when `d = '1'`, and is not `'0'` when
`d = '0'`), then every line the rewriter emits that contains `'>'` has a
name field whose trailing character is `d`. -/
theorem C2_trailing_digit_invariant (length : Nat) (haplotype : List (List Char))
    (d : Char) (content : List Char)
    (hset : ∀ n ∈ haplotype, n.getLast? = some d)
    (htoggle : ∀ l ∈ splitLines content, '>' ∈ l →
      (l.drop 1).take length ∉ haplotype →
      ∃ c, ((l.drop 1).take length).getLast? = some c ∧
        (if c = '0' then '1' else '0') = d) :
    ∀ l ∈ splitLines content, ∀ out, rewriteLine length haplotype l = some out →
      '>' ∈ out → (nameField length out).getLast? = some d := by
  intro l hl out hsome hm'
  by_cases hm : '>' ∈ l
  · by_cases hin : (l.drop 1).take length ∈ haplotype
    · rw [rewriteLine_member length haplotype l hm hin] at hsome
      injection hsome with hout
      subst hout
      exact hset _ hin
    · obtain ⟨c, hc, hd⟩ := htoggle l hl hm hin
      have hne : (l.drop 1).take length ≠ [] := by
        intro hnil
        rw [hnil] at hc
        simp at hc
      rw [rewriteLine_toggle length haplotype l c hm hin hc] at hsome
      injection hsome with hout
      rw [← hout, nameField_rewritten length l _ hne, List.getLast?_concat, hd]
  · rw [rewriteLine_not_marker length haplotype l hm] at hsome
    injection hsome with hout
    subst hout
    exact absurd hm' hm

/-- Witness for C2 (amended): width 9, haplotype list `[000022F_1]` (all
members end in `'1'`), input line `>000021F_0 1 22\n` whose name ends in
`'0'`; the emitted line `>000021F_1 1 22\n` has name field ending in `'1'`. -/
theorem C2_trailing_digit_invariant_witness :
    (nameField 9 ((">000021F_1 1 22\n").toList)).getLast? = some '1' := by
  have h := C2_trailing_digit_invariant 9 [("000022F_1").toList] '1'
    ((">000021F_0 1 22\n").toList)
    (by intro n hn; simp at hn; rw [hn]; decide)
    (by
      intro l hl hm hnot
      have hsp : splitLines ((">000021F_0 1 22\n").toList) =
          [(">000021F_0 1 22\n").toList] := by decide
      rw [hsp] at hl
      simp at hl
      rw [hl]
      exact ⟨'0', by decide, by decide⟩)
  exact h ((">000021F_0 1 22\n").toList) (by decide)
    ((">000021F_1 1 22\n").toList) (by decide) (by decide)

/-- C2 as stated is false: it quantifies over every haplotype list, but with
the empty list and input `>A0\n>B1\n` at width 2 the single output file
`>A1\n>B0\n` has contig lines ending in two different digits, so no per-file
indicator digit exists. -/
theorem C2_trailing_digit_counterexample :
    write_assembly 2 [] ((">A0\n>B1\n").toList) = some ((">A1\n>B0\n").toList) ∧
    ¬ ∃ d : Char, ∀ l ∈ splitLines ((">A1\n>B0\n").toList), '>' ∈ l →
        (nameField 2 l).getLast? = some d := by
  constructor
  · decide
  · rintro ⟨d, hd⟩
    have h1 := hd ((">A1\n").toList) (by decide) (by decide)
    have h2 := hd ((">B0\n").toList) (by decide) (by decide)
    have e1 : (nameField 2 ((">A1\n").toList)).getLast? = some '1' := by decide
    have e2 : (nameField 2 ((">B0\n").toList)).getLast? = some '0' := by decide
    rw [e1] at h1
    rw [e2] at h2
    injection h1 with h1'
    injection h2 with h2'
    rw [← h1'] at h2'
    exact absurd h2' (by decide)
